import Mathlib

/-!
Verification of the skill-eval trial orchestration engine.

This file gives a shallow embedding, in Lean 4, of the core logic of the
repository (the `EvalRunner` class with its graders, scheduler, metrics and
redactor) and proves the specification claims about it.

Modelling conventions:
* JS strings are modelled as `List Char` (`Text` below).
* JS numbers are modelled as exact rationals (`ℚ`); integer exit codes as `ℤ`.
* Fallible operations (thrown exceptions / rejected promises) are modelled
  with `Except Text`, the error carrying the message text.
* Wall-clock data (ISO timestamps, `duration_ms`) is real-time information
  and is not part of the embedding; all other fields of the data model are
  carried through faithfully.

The file is organised as definitions first (the embedding of the source),
then the helper lemmas and claim theorems.
-/

namespace SkillEval

/-- Text is modelled as a list of characters. -/
abbrev Text := List Char

/-- Characters of a Lean string literal, used to write concrete JS strings. -/
def chars (s : String) : Text := s.data

/-- GraderResult from `src/types.ts`: grader kind tag, score, configured
weight and free-text detail string. -/
structure GraderResult where
  grader_type : Text
  score : ℚ
  weight : ℚ
  details : Text
deriving DecidableEq

/-- GraderConfig (the fields used by the graders): variant tag, optional
shell command, optional rubric path, optional model id, and a weight. -/
structure GraderConfig where
  type : Text
  command : Option Text
  rubric : Option Text
  model : Option Text
  weight : ℚ
deriving DecidableEq

/-! ### Weighted reward aggregation (EvalRunner.runSingleTrial)

Source (`src/testBootstrap.ts`, lines 536-539):
`const totalWeight = graderResults.reduce((sum, r) => sum + r.weight, 0);`
`const reward = totalWeight > 0 ? graderResults.reduce((sum, r) => sum + r.score * r.weight, 0) / totalWeight : 0;`
-/

/-- Sum of the configured grader weights, as the `reduce` in the source. -/
def totalWeight (rs : List GraderResult) : ℚ :=
  rs.foldl (fun sum r => sum + r.weight) 0

/-- Weighted reward of a trial, exactly as computed in
`EvalRunner.runSingleTrial`. -/
def weightedReward (rs : List GraderResult) : ℚ :=
  let tw := totalWeight rs
  if 0 < tw then rs.foldl (fun sum r => sum + r.score * r.weight) 0 / tw else 0

/-! ### Metrics (calculatePassAtK / calculatePassPowK, src/testBootstrap.ts 369-385) -/

/-- pass@k as computed by `calculatePassAtK`: early return 1.0 when
`n - c < k`, otherwise the loop `result *= (n - c - i) / (n - i)` for
`i = 0, ..., k-1`, returning `1 - result`. -/
def calculatePassAtK (n c k : ℕ) : ℚ :=
  if (n : ℚ) - c < k then 1
  else 1 - (List.range k).foldl
    (fun (result : ℚ) (i : ℕ) => result * (((n : ℚ) - c - i) / ((n : ℚ) - i))) 1

/-- pass^k as computed by `calculatePassPowK`: `Math.pow(c / n, k)`. -/
def calculatePassPowK (n c k : ℕ) : ℚ :=
  ((c : ℚ) / n) ^ k

/-! ### Normalized Gain (calculateNormalizedGain, src/src/analytics/engine.ts 18-23) -/

/-- Normalized Gain exactly as in `calculateNormalizedGain`: the special
case `pWithout === 1` returns 0 when `pWith === 1` and -1 otherwise;
otherwise `(pWith - pWithout) / (1 - pWithout)`. -/
def calculateNormalizedGain (pWith pWithout : ℚ) : ℚ :=
  if pWithout = 1 then (if pWith = 1 then 0 else -1)
  else (pWith - pWithout) / (1 - pWithout)

/-! ### Command results and JS number parsing

`EnvironmentProvider.runCommand` returns `{stdout, stderr, exitCode}`
(`CommandResult` in `src/types.ts`). The providers themselves perform I/O,
so a provider response is an input of the embedded grader functions.
-/

/-- CommandResult from `src/types.ts`. -/
structure CommandResult where
  stdout : Text
  stderr : Text
  exitCode : ℤ
deriving DecidableEq

/-- Value space of a JS floating-point read: NaN, the two infinities, or a
finite value (JS doubles are modelled as exact rationals). -/
inductive JSNum where
  | nan
  | posInf
  | negInf
  | num (q : ℚ)
deriving DecidableEq

/-- Numeric value of a decimal digit character. -/
def digitVal (c : Char) : ℕ := c.toNat - '0'.toNat

/-- Natural number denoted by a list of decimal digit characters. -/
def digitsToNat (ds : Text) : ℕ := ds.foldl (fun acc c => 10 * acc + digitVal c) 0

/-- Value of a fractional digit string: "3" denotes 3/10, "25" denotes 25/100. -/
def fracVal (ds : Text) : ℚ := (digitsToNat ds : ℚ) / (10 : ℚ) ^ ds.length

/-- Exponent part after the 'e'/'E' marker: optional sign then digits; JS
parseFloat ignores a dangling exponent marker with no digits. -/
def expVal (r : Text) : ℤ :=
  let signAndRest : ℤ × Text :=
    match r with
    | '+' :: t => (1, t)
    | '-' :: t => (-1, t)
    | _ => (1, r)
  let ds := signAndRest.2.takeWhile Char.isDigit
  if ds = [] then 0 else signAndRest.1 * digitsToNat ds

/-- Syntactic outcome of a JS `parseFloat` scan: no digits (NaN), a signed
"Infinity" literal, or a finite literal broken into sign, integer digits,
fraction digits, and exponent value. -/
inductive FloatSyntax where
  | nan
  | inf (pos : Bool)
  | fin (neg : Bool) (ip fp : Text) (e : ℤ)
deriving DecidableEq

/-- Lexical phase of JS `parseFloat`: skip leading whitespace, read an
optional sign, then either the literal "Infinity" or a decimal mantissa
(digits, optional '.' and fraction digits) with an optional exponent,
ignoring any trailing characters; NaN when no digit could be read. -/
def scanFloat (l : Text) : FloatSyntax :=
  let l0 := l.dropWhile Char.isWhitespace
  let signAndRest : Bool × Text :=
    match l0 with
    | '+' :: r => (false, r)
    | '-' :: r => (true, r)
    | _ => (false, l0)
  let neg := signAndRest.1
  let l1 := signAndRest.2
  if (chars "Infinity").isPrefixOf l1 then FloatSyntax.inf (!neg)
  else
    let ip := l1.takeWhile Char.isDigit
    let l2 := l1.dropWhile Char.isDigit
    let fpAndRest : Text × Text :=
      match l2 with
      | '.' :: r => (r.takeWhile Char.isDigit, r.dropWhile Char.isDigit)
      | _ => ([], l2)
    let fp := fpAndRest.1
    let l3 := fpAndRest.2
    if ip = [] ∧ fp = [] then FloatSyntax.nan
    else
      let e : ℤ :=
        match l3 with
        | 'e' :: r => expVal r
        | 'E' :: r => expVal r
        | _ => 0
      FloatSyntax.fin neg ip fp e

/-- JS `parseFloat` as a value: the scanned literal interpreted in ℚ. -/
def jsParseFloat (l : Text) : JSNum :=
  match scanFloat l with
  | FloatSyntax.nan => JSNum.nan
  | FloatSyntax.inf true => JSNum.posInf
  | FloatSyntax.inf false => JSNum.negInf
  | FloatSyntax.fin neg ip fp e =>
      JSNum.num ((if neg then -1 else 1) *
        ((digitsToNat ip : ℚ) + fracVal fp) * (10 : ℚ) ^ e)

/-- JS `String.prototype.trim`: strip leading and trailing whitespace. -/
def jsTrim (l : Text) : Text :=
  ((l.dropWhile Char.isWhitespace).reverse.dropWhile Char.isWhitespace).reverse

/-! ### DeterministicGrader (src/testBootstrap.ts 154-184) -/

/-- Verification command selected by the deterministic grader:
`config.command || 'bash tests/test.sh'`. -/
def deterministicCommand (config : GraderConfig) : Text :=
  match config.command with
  | some c => if c = [] then chars "bash tests/test.sh" else c
  | none => chars "bash tests/test.sh"

/-- DeterministicGrader.grade. `result` is the provider response to the
verification command, `rewardCheck` the response to
`cat logs/verifier/reward.txt`. The score defaults to 1.0 on exit code 0
(else 0.0); when the reward file read succeeded and its trimmed content
parses as a float, that value clamped with `Math.max(0, Math.min(1, p))`
overrides the default (for `p = Infinity` the clamp yields 1, for
`p = -Infinity` it yields 0). -/
def deterministicGrade (config : GraderConfig) (result rewardCheck : CommandResult) :
    GraderResult :=
  let score0 : ℚ := if result.exitCode = 0 then 1 else 0
  let score : ℚ :=
    if rewardCheck.exitCode = 0 then
      match jsParseFloat (jsTrim rewardCheck.stdout) with
      | JSNum.nan => score0
      | JSNum.posInf => 1
      | JSNum.negInf => 0
      | JSNum.num q => max 0 (min 1 q)
    else score0
  { grader_type := chars "deterministic"
    score := score
    weight := config.weight
    details :=
      if jsTrim result.stdout ≠ [] then jsTrim result.stdout
      else if jsTrim result.stderr ≠ [] then jsTrim result.stderr
      else if 0 < score then chars "Passed" else chars "Failed" }

/-! ### LLMGrader (src/testBootstrap.ts 190-314)

The grader's external effects are inputs of the embedding:
* whether the rubric file exists (`fs.pathExists`),
* the two credentials (`env?.GEMINI_API_KEY || process.env.GEMINI_API_KEY`
  and the Anthropic analogue),
* the outcome of the `fetch` + response-field extraction (a thrown error is
  an `Except.error` carrying its message, success carries the extracted
  response text, `''` when the response shape was missing), and
* `JSON.parse` on the brace-matched substring, which either throws or
  yields an object whose `score` field (coerced through `parseFloat`) and
  `reasoning` field are retained.
The regex match `/\x7b[\s\S]*\x7d/` is embedded concretely as
`jsonMatchSub`.
-/

/-- Parsed JSON response object as consumed by `LLMGrader.parseResponse`:
the `score` field after the `parseFloat` coercion (NaN when absent or not
numeric) and the `reasoning` field ([] when absent or empty, both falsy). -/
structure ParsedResponse where
  score : JSNum
  reasoning : Text

/-- Match of the regex `/\x7b[\s\S]*\x7d/` on a text: from the first
opening brace that precedes the last closing brace, greedily through that
last closing brace; none when no such pair exists. -/
def jsonMatchSub (l : Text) : Option Text :=
  match ((List.range l.length).filter (fun j => l.getD j ' ' = '}')).getLast? with
  | none => none
  | some j =>
    match (List.range j).find? (fun i => l.getD i ' ' = '{') with
    | none => none
    | some i => some ((l.drop i).take (j - i + 1))

/-- Fallback GraderResult of `parseResponse` when no JSON-shaped substring
is found or `JSON.parse` throws. -/
def parseFailure (text : Text) (config : GraderConfig) : GraderResult :=
  { grader_type := chars "llm_rubric"
    score := 0
    weight := config.weight
    details := chars "Failed to parse LLM response: " ++ text }

/-- LLMGrader.parseResponse: scan the response for the first
JSON-object-shaped substring, parse it, clamp
`parseFloat(parsed.score) || 0` into [0,1]
(`Math.max(0, Math.min(1, v))`; NaN is replaced by 0 first, and the
infinities clamp to 1 and 0), and take `reasoning` as the detail text. -/
def parseResponse (jsonParse : Text → Except Unit ParsedResponse)
    (text : Text) (config : GraderConfig) : GraderResult :=
  match jsonMatchSub text with
  | none => parseFailure text config
  | some sub =>
    match jsonParse sub with
    | Except.error _ => parseFailure text config
    | Except.ok parsed =>
        let v : ℚ :=
          match parsed.score with
          | JSNum.nan => 0
          | JSNum.posInf => 1
          | JSNum.negInf => 0
          | JSNum.num q => max 0 (min 1 q)
        { grader_type := chars "llm_rubric"
          score := v
          weight := config.weight
          details := if parsed.reasoning = [] then chars "No reasoning provided"
                     else parsed.reasoning }

/-- External world of one `LLMGrader.grade` call. -/
structure LLMEnv where
  rubricExists : Bool
  geminiKey : Option Text
  anthropicKey : Option Text
  fetchResult : Except Text Text
  jsonParse : Text → Except Unit ParsedResponse

/-- Shared body of `callGemini` / `callAnthropic`: a thrown fetch/parse
becomes a zero-score diagnostic result, otherwise the response text goes
through `parseResponse`. -/
def callModel (env : LLMEnv) (config : GraderConfig) (errLabel : Text) :
    GraderResult :=
  match env.fetchResult with
  | Except.error e =>
      { grader_type := chars "llm_rubric"
        score := 0
        weight := config.weight
        details := errLabel ++ e }
  | Except.ok text => parseResponse env.jsonParse text config

/-- LLMGrader.grade: missing rubric file, missing credentials, thrown
fetch, and unparsable response all produce a zero-score GraderResult;
Gemini is tried first and Anthropic only when no Gemini key is set. -/
def llmGrade (env : LLMEnv) (config : GraderConfig) : GraderResult :=
  if env.rubricExists = false then
    { grader_type := chars "llm_rubric"
      score := 0
      weight := config.weight
      details := chars "Rubric file not found: " ++ config.rubric.getD (chars "prompts/quality.md") }
  else
    match env.geminiKey with
    | some _ => callModel env config (chars "Gemini API error: ")
    | none =>
      match env.anthropicKey with
      | some _ => callModel env config (chars "Anthropic API error: ")
      | none =>
          { grader_type := chars "llm_rubric"
            score := 0
            weight := config.weight
            details := chars "No API key available for LLM grading (set GEMINI_API_KEY or ANTHROPIC_API_KEY)" }

/-! ### Session logs, trial results, reports (src/types.ts) -/

/-- LogEntry (tagged union in `src/types.ts`), without the wall-clock
timestamp field. The `reward` variant carries the optional `output` field
that the catch handler of `runSingleTrial` fills with the error text. -/
inductive LogEntry where
  | agent_start (instruction : Text)
  | command (command stdout stderr : Text) (exitCode : ℤ)
  | agent_result (output : Text)
  | grader (grader_result : GraderResult)
  | reward (value : ℚ) (output : Option Text)
deriving DecidableEq

/-- TrialResult without the wall-clock `duration_ms` field. -/
structure TrialResult where
  trial_id : ℕ
  reward : ℚ
  grader_results : List GraderResult
  n_commands : ℕ
  session_log : List LogEntry
deriving DecidableEq

/-- EvalReport from `src/types.ts`. -/
structure EvalReport where
  task : Text
  pass_rate : ℚ
  pass_at_k : ℚ
  pass_pow_k : ℚ
  trials : List TrialResult
  skills_used : List Text
deriving DecidableEq

/-! ### Trial executor (EvalRunner.runSingleTrial, src/testBootstrap.ts 467-582)

One trial's interaction with the outside world - the provider, the
filesystem, the agent and the graders - is captured as a `TrialBehavior`:
the outcome each awaited operation would deliver. The executor itself is
the control flow of `runSingleTrial`: provider setup happens before the
try block; inside the try block the instruction is read and logged, the
agent runs under `withTimeout` (its commands are logged as they execute),
the graders run in declared order, and the weighted reward is computed;
the catch handler converts any thrown phase into a zero-reward result with
the error text appended to the session log; the finally block invokes
`provider.cleanup`. The second component of the executor's result counts
the `provider.cleanup` invocations of the trial.
-/

/-- External outcomes of one trial: provider setup, the instruction read,
the commands the agent ran before finishing (logged as they happen), the
agent outcome (a timeout or a thrown error is `Except.error` with its
message), and each configured grader's outcome in declared order. -/
structure TrialBehavior where
  setupResult : Except Text Unit
  instructionResult : Except Text Text
  agentCommands : List (Text × CommandResult)
  agentOutcome : Except Text Text
  graderOutcomes : List (Except Text GraderResult)

/-- Session-log entries for the commands the agent executed. -/
def commandEntries (cmds : List (Text × CommandResult)) : List LogEntry :=
  cmds.map (fun c => LogEntry.command c.1 c.2.stdout c.2.stderr c.2.exitCode)

/-- Grading loop of `runSingleTrial`: graders run in declared order, each
success is collected and logged, the first thrown grader aborts the loop
with its error. -/
def runGraderLoop : List (Except Text GraderResult) →
    Except Text (List GraderResult × List LogEntry)
  | [] => Except.ok ([], [])
  | Except.error e :: _ => Except.error e
  | Except.ok r :: rest =>
    match runGraderLoop rest with
    | Except.error e => Except.error e
    | Except.ok (rs, ls) => Except.ok (r :: rs, LogEntry.grader r :: ls)

/-- Data of the trial result produced inside the try/catch of
`runSingleTrial` (reward, grader results, command count, session log):
the catch handler turns any thrown phase into reward 0, no grader
results, and the error text pushed as a final zero-reward log entry. -/
def trialData (b : TrialBehavior) : ℚ × List GraderResult × ℕ × List LogEntry :=
  match b.instructionResult with
  | Except.error e => (0, [], 0, [LogEntry.reward 0 (some e)])
  | Except.ok instruction =>
    let nCmds := b.agentCommands.length
    let logStart := LogEntry.agent_start instruction :: commandEntries b.agentCommands
    match b.agentOutcome with
    | Except.error e => (0, [], nCmds, logStart ++ [LogEntry.reward 0 (some e)])
    | Except.ok agentLogs =>
      let logAgent := logStart ++ [LogEntry.agent_result agentLogs]
      match runGraderLoop b.graderOutcomes with
      | Except.error e => (0, [], nCmds, logAgent ++ [LogEntry.reward 0 (some e)])
      | Except.ok (graderResults, graderLog) =>
        let reward := weightedReward graderResults
        (reward, graderResults, nCmds,
          logAgent ++ graderLog ++ [LogEntry.reward reward none])

/-- TrialResult assembled from `trialData`; `trial_id` is `index + 1`. -/
def trialOutcome (b : TrialBehavior) (index : ℕ) : TrialResult :=
  let d := trialData b
  { trial_id := index + 1
    reward := d.1
    grader_results := d.2.1
    n_commands := d.2.2.1
    session_log := d.2.2.2 }

/-- EvalRunner.runSingleTrial: `provider.setup` runs before the try block,
so a thrown setup propagates without reaching the finally block; every
path through the try block reaches the finally block exactly once. The
second component counts `provider.cleanup` invocations. -/
def runSingleTrial (b : TrialBehavior) (index : ℕ) :
    Except Text TrialResult × ℕ :=
  match b.setupResult with
  | Except.error e => (Except.error e, 0)
  | Except.ok _ => (Except.ok (trialOutcome b index), 1)

/-- Sequential trial loop of `runEval` (its `parallel ≤ 1` path), running
trials `i, i+1, ...` for `k` trials: each awaited `runSingleTrial` that
rejects makes the loop - and hence `runEval` - reject. -/
def runTrialsSeqFrom (b : ℕ → TrialBehavior) (i : ℕ) :
    ℕ → Except Text (List TrialResult)
  | 0 => Except.ok []
  | Nat.succ k =>
    match (runSingleTrial (b i) i).1 with
    | Except.error e => Except.error e
    | Except.ok r =>
      match runTrialsSeqFrom b (i + 1) k with
      | Except.error e => Except.error e
      | Except.ok rs => Except.ok (r :: rs)

/-- JS `path.basename`: the segment after the last path separator. -/
def pathBasename (p : Text) : Text :=
  (p.reverse.takeWhile (fun c => c ≠ '/')).reverse

/-- Report assembly of `runEval`: total reward by `reduce`, successes are
the trials with reward ≥ 0.5, pass@k and pass^k are computed with
`k = numTrials`, and `skills_used` maps the skill paths through
`path.basename`. -/
def buildReport (taskName : Text) (skillsPaths : List Text) (numTrials : ℕ)
    (trials : List TrialResult) : EvalReport :=
  let totalReward := trials.foldl (fun sum t => sum + t.reward) 0
  let successes := (trials.filter (fun t => (1 : ℚ)/2 ≤ t.reward)).length
  { task := taskName
    pass_rate := totalReward / numTrials
    pass_at_k := calculatePassAtK numTrials successes numTrials
    pass_pow_k := calculatePassPowK numTrials successes numTrials
    trials := trials
    skills_used := skillsPaths.map pathBasename }

/-- EvalRunner.runEval on its sequential path: run the trials in index
order and assemble the report; a rejected trial promise (thrown provider
setup) rejects the whole evaluation. -/
def runEvalSeq (taskName : Text) (skillsPaths : List Text)
    (b : ℕ → TrialBehavior) (numTrials : ℕ) : Except Text EvalReport :=
  match runTrialsSeqFrom b 0 numTrials with
  | Except.error e => Except.error e
  | Except.ok trials => Except.ok (buildReport taskName skillsPaths numTrials trials)

/-- Whether an Except is the thrown case. -/
def isErr {ε α : Type} : Except ε α → Bool
  | Except.error _ => true
  | Except.ok _ => false

/-- Predicate: some phase inside the try block of this trial throws. -/
def phaseFailed (b : TrialBehavior) : Prop :=
  isErr b.instructionResult = true ∨ isErr b.agentOutcome = true ∨
    isErr (runGraderLoop b.graderOutcomes) = true

instance (b : TrialBehavior) : Decidable (phaseFailed b) := by
  unfold phaseFailed
  infer_instance

/-- Behavior of a trial whose provider setup throws; every other phase
would succeed. Used to exhibit the missing-cleanup / aborted-eval paths. -/
def setupFailureBehavior : TrialBehavior :=
  { setupResult := Except.error (chars "Setup failed: sandbox could not be provisioned")
    instructionResult := Except.ok (chars "instruction")
    agentCommands := []
    agentOutcome := Except.ok (chars "done")
    graderOutcomes := [] }

/-- Behavior of a trial whose setup succeeds but whose agent phase throws
(for example the `withTimeout` rejection). -/
def agentTimeoutBehavior : TrialBehavior :=
  { setupResult := Except.ok ()
    instructionResult := Except.ok (chars "instruction")
    agentCommands := [(chars "superlint check", ⟨chars "checking", [], 0⟩)]
    agentOutcome := Except.error (chars "Agent (limit: 300s) timed out after 300s")
    graderOutcomes := [] }

/-- Behavior of a trial in which every phase succeeds. -/
def successBehavior : TrialBehavior :=
  { setupResult := Except.ok ()
    instructionResult := Except.ok (chars "instruction")
    agentCommands := []
    agentOutcome := Except.ok (chars "Solved")
    graderOutcomes := [Except.ok ⟨chars "deterministic", 1, 1, chars "Passed"⟩] }

/-! ### Trial scheduler (EvalRunner.runTrialsParallel, src/testBootstrap.ts 444-465)

The parallel path pre-sizes a result array of length `numTrials`, fills a
shared queue with the indices `0..numTrials-1`, and starts
`Math.min(parallel, numTrials)` workers; each worker loops
`const i = queue.shift(); results[i] = await this.runSingleTrial(...)`
until the queue is empty, and `Promise.all` awaits them. JS concurrency is
cooperative: the synchronous segment containing `queue.shift()` is atomic,
and the write `results[i] = ...` when the awaited trial settles is another
atomic segment. The scheduler is embedded as a transition system over
these two kinds of atomic steps with a nondeterministic worker
interleaving; `f i` is the trial result the (deterministic) executor
produces for index `i` when its setup succeeds. -/

/-- Number of workers started: `Math.min(parallel, numTrials)`. -/
def numWorkers (parallel numTrials : ℕ) : ℕ := min parallel numTrials

/-- Scheduler state: the shared queue of trial indices, the association of
busy workers to the index they are awaiting, the pre-sized result array
(`none` = slot not yet written), and how often each slot was written. -/
structure SchedState (W : ℕ) where
  queue : List ℕ
  pending : List (Fin W × ℕ)
  results : ℕ → Option TrialResult
  writes : ℕ → ℕ

/-- Initial scheduler state: queue `0..n-1`, all workers idle, empty
result array. -/
def initState (W n : ℕ) : SchedState W :=
  { queue := List.range n
    pending := []
    results := fun _ => none
    writes := fun _ => 0 }

/-- One atomic step of the parallel scheduler: an idle worker shifts the
head off the shared queue and starts that trial, or a busy worker's
awaited trial settles and its result is written into the worker's slot. -/
inductive SchedStep (f : ℕ → TrialResult) {W : ℕ} :
    SchedState W → SchedState W → Prop
  | pop (s : SchedState W) (w : Fin W) (i : ℕ) (rest : List ℕ)
      (hidle : ∀ p ∈ s.pending, p.1 ≠ w)
      (hq : s.queue = i :: rest) :
      SchedStep f s { s with queue := rest, pending := (w, i) :: s.pending }
  | finish (s : SchedState W) (w : Fin W) (i : ℕ) (l1 l2 : List (Fin W × ℕ))
      (hp : s.pending = l1 ++ (w, i) :: l2) :
      SchedStep f s { s with
        pending := l1 ++ l2
        results := fun j => if j = i then some (f i) else s.results j
        writes := fun j => if j = i then s.writes j + 1 else s.writes j }

/-- Scheduler states reachable from the initial state for `n` trials. -/
def SchedReachable (f : ℕ → TrialResult) (W n : ℕ) (s : SchedState W) : Prop :=
  Relation.ReflTransGen (SchedStep f) (initState W n) s

/-- Terminal scheduler state: the queue is drained and every worker's
loop has exited, so `Promise.all` has resolved. -/
def SchedDone {W : ℕ} (s : SchedState W) : Prop :=
  s.queue = [] ∧ s.pending = []

/-- Scheduler invariant: each trial index below `n` is in exactly one
place (queue, in-flight, or written once), indices outside the queue range
never appear, and every written slot holds the executor result of its own
index. -/
def SchedInv (f : ℕ → TrialResult) (n : ℕ) {W : ℕ} (s : SchedState W) : Prop :=
  (∀ j, s.queue.count j + (s.pending.map Prod.snd).count j + s.writes j
      = if j < n then 1 else 0) ∧
  (∀ j, 1 ≤ s.writes j → s.results j = some (f j))

/-- State after a pop step, as produced by `SchedStep.pop`. -/
def popState {W : ℕ} (s : SchedState W) (w : Fin W) (i : ℕ) (rest : List ℕ) :
    SchedState W :=
  { s with queue := rest, pending := (w, i) :: s.pending }

/-- State after a finish step, as produced by `SchedStep.finish`. -/
def finishState (f : ℕ → TrialResult) {W : ℕ} (s : SchedState W) (i : ℕ)
    (l1 l2 : List (Fin W × ℕ)) : SchedState W :=
  { s with
    pending := l1 ++ l2
    results := fun j => if j = i then some (f i) else s.results j
    writes := fun j => if j = i then s.writes j + 1 else s.writes j }

/-- Trial result function of the always-succeeding example executor. -/
def exampleTrialFn : ℕ → TrialResult := fun i => trialOutcome successBehavior i

/-- Worker 0 of the 3-worker example schedule. -/
def exW0 : Fin (numWorkers 3 3) := ⟨0, by decide⟩

/-- Worker 1 of the 3-worker example schedule. -/
def exW1 : Fin (numWorkers 3 3) := ⟨1, by decide⟩

/-- Worker 2 of the 3-worker example schedule. -/
def exW2 : Fin (numWorkers 3 3) := ⟨2, by decide⟩

/-- Terminal state of a concrete numTrials=3, parallel=3 schedule in which
the three workers pop trials 0, 1, 2 and finish out of order (worker 1
first, then worker 2, then worker 0). -/
def schedFinalExample : SchedState (numWorkers 3 3) :=
  finishState exampleTrialFn
    (finishState exampleTrialFn
      (finishState exampleTrialFn
        (popState (popState (popState (initState (numWorkers 3 3) 3)
          exW0 0 [1, 2]) exW1 1 [2]) exW2 2 [])
        1 [(exW2, 2)] [(exW0, 0)])
      2 [] [(exW0, 0)])
    0 [] []

/-! ### Redactor (EvalRunner.sanitize, src/testBootstrap.ts 584-615) -/

/-- Redaction sentinel `'[REDACTED]'`. -/
def sentinel : Text := chars "[REDACTED]"

/-- Index of the first occurrence of the pattern `s` as a contiguous
substring of `l`, leftmost first, as JS `String.prototype.split` locates
separators. -/
def findSub (s : Text) : Text → Option ℕ
  | [] => if s.isPrefixOf [] then some 0 else none
  | c :: r => if s.isPrefixOf (c :: r) then some 0 else (findSub s r).map Nat.succ

/-- JS `String.prototype.split` on a nonempty separator pattern: cut at
the leftmost occurrence and continue after it. (The redactor only splits
on secrets of length > 5, so the empty-separator behavior of JS split is
irrelevant; it is mapped to the one-piece result here.) -/
def splitOnSub (s : Text) (l : Text) : List Text :=
  if hs : s.length = 0 then [l]
  else
    match hf : findSub s l with
    | none => [l]
    | some i => l.take i :: splitOnSub s (l.drop (i + s.length))
termination_by l.length
decreasing_by
  simp only [List.length_drop]
  have hl : l ≠ [] := by
    intro h
    subst h
    cases s with
    | nil => exact hs rfl
    | cons c cs => simp [findSub, List.isPrefixOf] at hf
  have hpos : 0 < l.length := List.length_pos.mpr hl
  omega

/-- JS `Array.prototype.join` of string pieces with separator `t`. -/
def joinWith (t : Text) : List Text → Text
  | [] => []
  | [p] => p
  | p :: q :: ps => p ++ t ++ joinWith t (q :: ps)

/-- One pass `result.split(secret).join('[REDACTED]')` of the redactor. -/
def redactOne (s t l : Text) : Text := joinWith t (splitOnSub s l)

/-- Inner `redact` closure of `EvalRunner.sanitize`: fold over the secret
values in object order, replacing every occurrence of each secret that is
truthy (nonempty) and of length > 5. -/
def redact (secrets : List Text) (l : Text) : Text :=
  secrets.foldl
    (fun result secret =>
      if secret ≠ [] ∧ 5 < secret.length then redactOne secret sentinel result
      else result) l

/-- Field update for a truthiness-guarded assignment
`if (entry.x) entry.x = redact(entry.x)`: empty strings are falsy and
skipped. -/
def redactField (secrets : List Text) (f : Text) : Text :=
  if f = [] then f else redact secrets f

/-- Truthiness-guarded redaction of a field that may be absent. -/
def redactOptField (secrets : List Text) : Option Text → Option Text
  | none => none
  | some f => some (redactField secrets f)

/-- Redaction of one GraderResult's detail string
(`if (entry.grader_result?.details)` / `if (gr.details)`). -/
def sanitizeGraderResult (secrets : List Text) (gr : GraderResult) : GraderResult :=
  { gr with details := redactField secrets gr.details }

/-- Redaction of one session-log entry: exactly the fields the source
checks (`instruction`, `command`, `stdout`, `stderr`, `output`,
`grader_result?.details`); fields a variant does not carry are undefined
in JS and hence skipped by the truthiness guards. -/
def sanitizeEntry (secrets : List Text) : LogEntry → LogEntry
  | LogEntry.agent_start i => LogEntry.agent_start (redactField secrets i)
  | LogEntry.command c o e x =>
      LogEntry.command (redactField secrets c) (redactField secrets o)
        (redactField secrets e) x
  | LogEntry.agent_result o => LogEntry.agent_result (redactField secrets o)
  | LogEntry.grader gr => LogEntry.grader (sanitizeGraderResult secrets gr)
  | LogEntry.reward v o => LogEntry.reward v (redactOptField secrets o)

/-- Redaction of one trial: every session-log entry and every
grader-result detail string. -/
def sanitizeTrial (secrets : List Text) (t : TrialResult) : TrialResult :=
  { t with
    session_log := t.session_log.map (sanitizeEntry secrets)
    grader_results := t.grader_results.map (sanitizeGraderResult secrets) }

/-- EvalRunner.sanitize: without an env map the report is returned
unchanged (`if (!env) return report`); otherwise a deep copy (the JSON
round trip is the identity on the embedded data) with the redact closure
applied to every guarded text field, the secrets being the env values in
object order. -/
def sanitizeReport (env : Option (List (Text × Text))) (report : EvalReport) :
    EvalReport :=
  match env with
  | none => report
  | some env =>
    let secrets := env.map Prod.snd
    { report with trials := report.trials.map (sanitizeTrial secrets) }

/-- Text fields of one log entry. -/
def entryTexts : LogEntry → List Text
  | LogEntry.agent_start i => [i]
  | LogEntry.command c o e _ => [c, o, e]
  | LogEntry.agent_result o => [o]
  | LogEntry.grader gr => [gr.details]
  | LogEntry.reward _ none => []
  | LogEntry.reward _ (some o) => [o]

/-- Text fields of one trial: all session-log fields and all grader
detail strings. -/
def trialTexts (t : TrialResult) : List Text :=
  t.session_log.flatMap entryTexts ++ t.grader_results.map (fun gr => gr.details)

/-- Text fields of a report. -/
def reportTexts (r : EvalReport) : List Text :=
  r.trials.flatMap trialTexts

/-- Non-overlap of a pattern with the sentinel: the pattern is not a
substring of the sentinel nor vice versa, no nonempty prefix of the
sentinel is a suffix of the pattern, and no nonempty suffix of the
sentinel is a prefix of the pattern. For such patterns the split/join
pass can never re-create an occurrence. -/
def SentinelSafe (s : Text) : Prop :=
  (¬ s <:+: sentinel) ∧ (¬ sentinel <:+: s) ∧
  (∀ k ∈ List.range sentinel.length, ¬ sentinel.take (k + 1) <:+ s) ∧
  (∀ k ∈ List.range sentinel.length, ¬ sentinel.drop k <+: s)

instance (s : Text) : Decidable (SentinelSafe s) := by
  unfold SentinelSafe
  infer_instance

/-- Env map of the spec's secret-injection scenario. -/
def exampleSecretEnv : List (Text × Text) :=
  [(chars "MY_SECRET", chars "SUPER_SECRET_KEY_12345")]

/-- Command stdout in which the injected secret was echoed verbatim. -/
def exampleEchoStdout : Text := chars "The secret is SUPER_SECRET_KEY_12345"

/-- Report of the secret-injection scenario: one trial whose command
output echoed the secret. -/
def exampleSecretReport : EvalReport :=
  { task := chars "superlint_demo"
    pass_rate := 1
    pass_at_k := 1
    pass_pow_k := 1
    trials := [{ trial_id := 1
                 reward := 1
                 grader_results := []
                 n_commands := 1
                 session_log := [LogEntry.command (chars "echo \"The secret is $MY_SECRET\"")
                   exampleEchoStdout [] 0] }]
    skills_used := [] }

/-- Env map whose secret value overlaps the sentinel text. -/
def exampleLeakEnv : List (Text × Text) :=
  [(chars "MY_SECRET", chars "REDACT")]

/-- Report with one trial whose command stdout is exactly the
sentinel-overlapping secret. -/
def exampleLeakReport : EvalReport :=
  { task := chars "superlint_demo"
    pass_rate := 0
    pass_at_k := 0
    pass_pow_k := 0
    trials := [{ trial_id := 1
                 reward := 0
                 grader_results := []
                 n_commands := 1
                 session_log := [LogEntry.command (chars "echo secret")
                   (chars "REDACT") [] 0] }]
    skills_used := [] }

/-!
## Helper lemmas
-/

theorem prefix_append_split {s a b : Text} (h : s <+: a ++ b) :
    s <+: a ∨ ∃ s2, s = a ++ s2 ∧ s2 <+: b := by
  rcases List.prefix_or_prefix_of_prefix h (List.prefix_append a b) with h1 | h1
  · exact Or.inl h1
  · right
    obtain ⟨s2, rfl⟩ := h1
    refine ⟨s2, rfl, ?_⟩
    obtain ⟨r, hr⟩ := h
    rw [List.append_assoc] at hr
    exact ⟨r, List.append_cancel_left hr⟩

theorem infix_append_split {s a b : Text} (h : s <:+: a ++ b) :
    s <:+: a ∨ s <:+: b ∨
      ∃ s1 s2, s = s1 ++ s2 ∧ s1 ≠ [] ∧ s2 ≠ [] ∧ s1 <:+ a ∧ s2 <+: b := by
  induction a with
  | nil =>
    rw [List.nil_append] at h
    exact Or.inr (Or.inl h)
  | cons c a ih =>
    rw [List.cons_append, List.infix_cons_iff] at h
    rcases h with h | h
    · rw [show c :: (a ++ b) = (c :: a) ++ b from rfl] at h
      rcases prefix_append_split h with h1 | ⟨s2, rfl, hs2⟩
      · exact Or.inl h1.isInfix
      · by_cases h2 : s2 = []
        · subst h2
          exact Or.inl (by simpa using List.infix_refl (c :: a))
        · right; right
          exact ⟨c :: a, s2, rfl, by simp, h2, List.suffix_refl _, hs2⟩
    · rcases ih h with h1 | h1 | ⟨s1, s2, hs, hn1, hn2, hsuf, hpre⟩
      · exact Or.inl (h1.trans (List.suffix_cons c a).isInfix)
      · exact Or.inr (Or.inl h1)
      · right; right
        exact ⟨s1, s2, hs, hn1, hn2, hsuf.trans (List.suffix_cons c a), hpre⟩

theorem infix_of_prefix_drop {s l : Text} {i : ℕ} (h : s <+: l.drop i) : s <:+: l :=
  h.isInfix.trans (List.drop_suffix i l).isInfix

theorem infix_exists_drop {s l : Text} (h : s <:+: l) : ∃ i, s <+: l.drop i := by
  obtain ⟨u, v, huv⟩ := h
  refine ⟨u.length, ?_⟩
  rw [← huv, List.append_assoc, List.drop_left]
  exact List.prefix_append s v

theorem sentinelSafe_no_head_overlap {s q : Text} (hsafe : SentinelSafe s)
    (hq : q <:+ sentinel) (hne : q ≠ []) : ¬ q <+: s := by
  have hlen : q.length ≤ sentinel.length := hq.length_le
  have hpos : 0 < q.length := List.length_pos.mpr hne
  have hk : sentinel.length - q.length ∈ List.range sentinel.length :=
    List.mem_range.mpr (by omega)
  have hdrop := hsafe.2.2.2 _ hk
  rwa [← List.suffix_iff_eq_drop.mp hq] at hdrop

theorem sentinelSafe_no_prefix_suffix {s p : Text} (hsafe : SentinelSafe s)
    (hp : p <+: sentinel) (hne : p ≠ []) : ¬ p <:+ s := by
  have hlen : p.length ≤ sentinel.length := hp.length_le
  have hpos : 0 < p.length := List.length_pos.mpr hne
  have hk : p.length - 1 ∈ List.range sentinel.length := List.mem_range.mpr (by omega)
  have htake := hsafe.2.2.1 _ hk
  have hpq : sentinel.take (p.length - 1 + 1) = p := by
    rw [show p.length - 1 + 1 = p.length by omega]
    exact (List.prefix_iff_eq_take.mp hp).symm
  rwa [hpq] at htake

/-- With a SentinelSafe pattern, prepending a sentinel block to a
pattern-free text keeps it pattern-free. -/
theorem not_infix_sentinel_append {s w : Text} (hsafe : SentinelSafe s)
    (hw : ¬ s <:+: w) : ¬ s <:+: sentinel ++ w := by
  intro h
  rcases infix_append_split h with h1 | h1 | ⟨s1, s2, hs, hn1, hn2, hsuf, hpre⟩
  · exact hsafe.1 h1
  · exact hw h1
  · exact sentinelSafe_no_head_overlap hsafe hsuf hn1
      (hs ▸ List.prefix_append s1 s2)

/-- With a SentinelSafe nonempty pattern, joining pattern-free pieces with
the sentinel yields a pattern-free text. -/
theorem joinWith_no_infix {s : Text} (hsafe : SentinelSafe s) (hs : s ≠ []) :
    ∀ pieces : List Text, (∀ p ∈ pieces, ¬ s <:+: p) →
    ¬ s <:+: joinWith sentinel pieces := by
  intro pieces
  induction pieces with
  | nil =>
    intro _ h
    exact hs (List.infix_nil.mp h)
  | cons p ps ih =>
    intro hp
    cases ps with
    | nil => simpa [joinWith] using hp p (by simp)
    | cons q ps2 =>
      rw [joinWith]
      intro h
      have hrest : ¬ s <:+: joinWith sentinel (q :: ps2) :=
        ih (fun x hx => hp x (List.mem_cons_of_mem p hx))
      rw [List.append_assoc] at h
      rcases infix_append_split h with h1 | h1 | ⟨s1, s2, hseq, hn1, hn2, hsuf, hpre⟩
      · exact hp p (by simp) h1
      · exact not_infix_sentinel_append hsafe hrest h1
      · have hs2 : s2 <:+ s := ⟨s1, hseq.symm⟩
        rcases List.prefix_or_prefix_of_prefix hpre
            (List.prefix_append sentinel (joinWith sentinel (q :: ps2))) with h2 | h2
        · exact sentinelSafe_no_prefix_suffix hsafe h2 hn2 hs2
        · exact hsafe.2.1 (h2.isInfix.trans hs2.isInfix)

/-- The joined text contains the separator whenever there are at least two
pieces. -/
theorem joinWith_mem_sep (t : Text) (pieces : List Text)
    (h : 2 ≤ pieces.length) : t <:+: joinWith t pieces := by
  match pieces with
  | [] => simp at h
  | [p] => simp at h
  | p :: q :: ps =>
    rw [joinWith]
    exact ⟨p, joinWith t (q :: ps), by rw [List.append_assoc]⟩

theorem findSub_none_no_match (s : Text) :
    ∀ l, findSub s l = none → ∀ i, ¬ s <+: l.drop i := by
  intro l
  induction l with
  | nil =>
    intro h i hp
    rw [List.drop_nil] at hp
    have hs : s = [] := List.prefix_nil.mp hp
    subst hs
    simp [findSub] at h
  | cons c r ih =>
    intro h i
    rw [findSub] at h
    cases hpre : s.isPrefixOf (c :: r) with
    | true => rw [hpre] at h; simp at h
    | false =>
      rw [hpre] at h
      simp only [Bool.false_eq_true, if_false, Option.map_eq_none'] at h
      cases i with
      | zero =>
        intro hp
        rw [List.drop_zero] at hp
        have hnp : ¬ s <+: c :: r := by
          rw [← List.isPrefixOf_iff_prefix, hpre]
          simp
        exact hnp hp
      | succ j =>
        rw [List.drop_succ_cons]
        exact ih h j

theorem findSub_some_spec (s : Text) :
    ∀ l i, findSub s l = some i →
      s <+: l.drop i ∧ ∀ j, j < i → ¬ s <+: l.drop j := by
  intro l
  induction l with
  | nil =>
    intro i h
    rw [findSub] at h
    cases hpre : s.isPrefixOf ([] : Text) with
    | true =>
      rw [hpre] at h
      simp only [if_true] at h
      cases h
      refine ⟨?_, by omega⟩
      rw [List.isPrefixOf_iff_prefix] at hpre
      simpa using hpre
    | false => rw [hpre] at h; simp at h
  | cons c r ih =>
    intro i h
    rw [findSub] at h
    cases hpre : s.isPrefixOf (c :: r) with
    | true =>
      rw [hpre] at h
      simp only [if_true] at h
      cases h
      refine ⟨?_, by omega⟩
      rw [List.isPrefixOf_iff_prefix] at hpre
      simpa using hpre
    | false =>
      rw [hpre] at h
      simp only [Bool.false_eq_true, if_false] at h
      cases hf : findSub s r with
      | none => rw [hf] at h; simp at h
      | some i0 =>
        rw [hf] at h
        simp only [Option.map_some'] at h
        cases h
        obtain ⟨hpre0, hmin⟩ := ih i0 hf
        refine ⟨by simpa [List.drop_succ_cons] using hpre0, ?_⟩
        intro j hj
        cases j with
        | zero =>
          intro hp
          rw [List.drop_zero] at hp
          have hnp : ¬ s <+: c :: r := by
            rw [← List.isPrefixOf_iff_prefix, hpre]
            simp
          exact hnp hp
        | succ j0 =>
          rw [List.drop_succ_cons]
          exact hmin j0 (by omega)

theorem splitOnSub_of_none (s l : Text) (hs : s.length ≠ 0)
    (hf : findSub s l = none) : splitOnSub s l = [l] := by
  rw [splitOnSub, dif_neg hs]
  split
  · rfl
  · rename_i i heq
    rw [hf] at heq
    cases heq

theorem splitOnSub_of_some (s l : Text) (hs : s.length ≠ 0) (i : ℕ)
    (hf : findSub s l = some i) :
    splitOnSub s l = l.take i :: splitOnSub s (l.drop (i + s.length)) := by
  rw [splitOnSub, dif_neg hs]
  split
  · rename_i heq
    rw [hf] at heq
    cases heq
  · rename_i j heq
    rw [hf] at heq
    cases heq
    rfl

theorem splitOnSub_ne_nil (s l : Text) : splitOnSub s l ≠ [] := by
  rw [splitOnSub]
  split
  · simp
  · split <;> simp

theorem splitOnSub_pieces_within (s : Text) :
    ∀ l, ∀ p ∈ splitOnSub s l, p <:+: l := by
  intro l
  induction l using splitOnSub.induct s with
  | case1 l hs0 =>
    rw [splitOnSub, dif_pos hs0]
    intro p hp
    rw [List.mem_singleton] at hp
    rw [hp]
  | case2 l hs0 hf =>
    rw [splitOnSub_of_none s l hs0 hf]
    intro p hp
    rw [List.mem_singleton] at hp
    rw [hp]
  | case3 l hs0 i hf ih =>
    rw [splitOnSub_of_some s l hs0 i hf]
    intro p hp
    rcases List.mem_cons.mp hp with hp1 | hp1
    · subst hp1
      exact (List.take_prefix i l).isInfix
    · exact (ih p hp1).trans (List.drop_suffix _ l).isInfix

theorem splitOnSub_pieces_free (s : Text) (hsne : s ≠ []) :
    ∀ l, ∀ p ∈ splitOnSub s l, ¬ s <:+: p := by
  have hs : s.length ≠ 0 := by simpa [List.length_eq_zero] using hsne
  intro l
  induction l using splitOnSub.induct s with
  | case1 l hs0 => exact absurd hs0 hs
  | case2 l hs0 hf =>
    rw [splitOnSub_of_none s l hs0 hf]
    intro p hp
    rw [List.mem_singleton] at hp
    rw [hp]
    intro hinf
    obtain ⟨i, hi⟩ := infix_exists_drop hinf
    exact findSub_none_no_match s l hf i hi
  | case3 l hs0 i hf ih =>
    rw [splitOnSub_of_some s l hs0 i hf]
    intro p hp
    rcases List.mem_cons.mp hp with hp1 | hp1
    · subst hp1
      intro hinf
      obtain ⟨j, hj⟩ := infix_exists_drop hinf
      have hne : (l.take i).drop j ≠ [] := by
        intro hnil
        rw [hnil, List.prefix_nil] at hj
        exact hsne hj
      have hji : j < i := by
        have h1 : j < (l.take i).length := by
          by_contra hc
          exact hne (List.drop_eq_nil_of_le (by omega))
        have h2 : (l.take i).length ≤ i := by
          rw [List.length_take]
          omega
        omega
      have heq : (l.take i).drop j = (l.drop j).take (i - j) := by
        rw [List.take_drop, show j + (i - j) = i by omega]
      rw [heq] at hj
      have : s <+: l.drop j := hj.trans (List.take_prefix _ _)
      exact (findSub_some_spec s l i hf).2 j hji this
    · exact ih p hp1

theorem splitOnSub_single (s l : Text) (hs : s.length ≠ 0)
    (h : ¬ s <:+: l) : splitOnSub s l = [l] := by
  cases hf : findSub s l with
  | none => exact splitOnSub_of_none s l hs hf
  | some i =>
    exact absurd (infix_of_prefix_drop (findSub_some_spec s l i hf).1) h

theorem splitOnSub_two (s l : Text) (hs : s.length ≠ 0)
    (h : s <:+: l) : 2 ≤ (splitOnSub s l).length := by
  cases hf : findSub s l with
  | none =>
    obtain ⟨i, hi⟩ := infix_exists_drop h
    exact absurd hi (findSub_none_no_match s l hf i)
  | some i =>
    rw [splitOnSub_of_some s l hs i hf]
    have := splitOnSub_ne_nil s (l.drop (i + s.length))
    have hpos : 0 < (splitOnSub s (l.drop (i + s.length))).length :=
      List.length_pos.mpr this
    simp only [List.length_cons]
    omega

theorem joinWith_single (t p : Text) : joinWith t [p] = p := rfl

theorem redactOne_not_infix_self {s : Text} (hsafe : SentinelSafe s) (hs : s ≠ [])
    (l : Text) : ¬ s <:+: redactOne s sentinel l :=
  joinWith_no_infix hsafe hs _ (splitOnSub_pieces_free s hs l)

theorem redactOne_preserves_free {s : Text} (s2 : Text) (hsafe : SentinelSafe s)
    (hs : s ≠ []) {l : Text} (hl : ¬ s <:+: l) : ¬ s <:+: redactOne s2 sentinel l :=
  joinWith_no_infix hsafe hs _ (fun p hp hinf =>
    hl (hinf.trans (splitOnSub_pieces_within s2 l p hp)))

theorem redactOne_eq_of_no_occurrence {s2 : Text} (hs2 : s2.length ≠ 0) {l : Text}
    (h : ¬ s2 <:+: l) : redactOne s2 sentinel l = l := by
  rw [redactOne, splitOnSub_single s2 l hs2 h, joinWith_single]

theorem redactOne_sentinel_mem {s2 l : Text} (hs2 : s2.length ≠ 0)
    (h : s2 <:+: l) : sentinel <:+: redactOne s2 sentinel l :=
  joinWith_mem_sep sentinel _ (splitOnSub_two s2 l hs2 h)

theorem redactOne_sentinel_preserved (s2 : Text) {l : Text} (h : sentinel <:+: l) :
    sentinel <:+: redactOne s2 sentinel l := by
  by_cases hs2 : s2.length = 0
  · rw [redactOne, splitOnSub, dif_pos hs2, joinWith_single]
    exact h
  · by_cases hocc : s2 <:+: l
    · exact redactOne_sentinel_mem hs2 hocc
    · rw [redactOne_eq_of_no_occurrence hs2 hocc]
      exact h

theorem redact_preserves_free (secrets : List Text) {s : Text}
    (hsafe : SentinelSafe s) (hs : s ≠ []) :
    ∀ l : Text, ¬ s <:+: l → ¬ s <:+: redact secrets l := by
  induction secrets with
  | nil => intro l hl; simpa [redact] using hl
  | cons sec rest ih =>
    intro l hl
    simp only [redact, List.foldl_cons]
    by_cases hc : sec ≠ [] ∧ 5 < sec.length
    · rw [if_pos hc]
      exact ih _ (redactOne_preserves_free sec hsafe hs hl)
    · rw [if_neg hc]
      exact ih l hl

theorem redact_not_infix_mem (secrets : List Text) {s : Text} (hmem : s ∈ secrets)
    (hlen : 5 < s.length) (hsafe : SentinelSafe s) :
    ∀ l : Text, ¬ s <:+: redact secrets l := by
  have hs : s ≠ [] := by
    intro h
    rw [h] at hlen
    simp at hlen
  induction secrets with
  | nil => simp at hmem
  | cons sec rest ih =>
    intro l
    simp only [redact, List.foldl_cons]
    rcases List.mem_cons.mp hmem with heq | hmem2
    · subst heq
      rw [if_pos ⟨hs, hlen⟩]
      exact redact_preserves_free rest hsafe hs _
        (redactOne_not_infix_self hsafe hs l)
    · exact ih hmem2 _

theorem redact_or_sentinel (secrets : List Text) {s : Text} :
    ∀ l : Text, (s <:+: l ∨ sentinel <:+: l) →
      s <:+: redact secrets l ∨ sentinel <:+: redact secrets l := by
  induction secrets with
  | nil => intro l h; simpa [redact] using h
  | cons sec rest ih =>
    intro l h
    simp only [redact, List.foldl_cons]
    apply ih
    by_cases hc : sec ≠ [] ∧ 5 < sec.length
    · rw [if_pos hc]
      have hs2 : sec.length ≠ 0 := by omega
      rcases h with h | h
      · by_cases hocc : sec <:+: l
        · exact Or.inr (redactOne_sentinel_mem hs2 hocc)
        · rw [redactOne_eq_of_no_occurrence hs2 hocc]
          exact Or.inl h
      · exact Or.inr (redactOne_sentinel_preserved sec h)
    · rw [if_neg hc]
      exact h

theorem redact_sentinel_of_occurrence (secrets : List Text) {s : Text}
    (hmem : s ∈ secrets) (hlen : 5 < s.length) (hsafe : SentinelSafe s)
    {l : Text} (h : s <:+: l) : sentinel <:+: redact secrets l := by
  rcases redact_or_sentinel secrets l (Or.inl h) with h1 | h1
  · exact absurd h1 (redact_not_infix_mem secrets hmem hlen hsafe l)
  · exact h1

theorem redactField_free (secrets : List Text) {s : Text} (hmem : s ∈ secrets)
    (hlen : 5 < s.length) (hsafe : SentinelSafe s) (f : Text) :
    ¬ s <:+: redactField secrets f := by
  rw [redactField]
  by_cases hf : f = []
  · rw [if_pos hf, hf]
    intro h
    have := List.infix_nil.mp h
    rw [this] at hlen
    simp at hlen
  · rw [if_neg hf]
    exact redact_not_infix_mem secrets hmem hlen hsafe f

theorem redactField_sentinel (secrets : List Text) {s : Text} (hmem : s ∈ secrets)
    (hlen : 5 < s.length) (hsafe : SentinelSafe s) {f : Text} (h : s <:+: f) :
    sentinel <:+: redactField secrets f := by
  have hf : f ≠ [] := by
    intro h0
    rw [h0, List.infix_nil] at h
    rw [h] at hlen
    simp at hlen
  rw [redactField, if_neg hf]
  exact redact_sentinel_of_occurrence secrets hmem hlen hsafe h

theorem redact_id_of_short {secrets : List Text} (h : ∀ v ∈ secrets, v.length ≤ 5) :
    ∀ l : Text, redact secrets l = l := by
  induction secrets with
  | nil => intro l; rfl
  | cons sec rest ih =>
    intro l
    simp only [redact, List.foldl_cons]
    have hc : ¬ (sec ≠ [] ∧ 5 < sec.length) := by
      rintro ⟨-, hb⟩
      have := h sec (by simp)
      omega
    rw [if_neg hc]
    exact ih (fun v hv => h v (List.mem_cons_of_mem sec hv)) l

theorem entryTexts_sanitizeEntry (secrets : List Text) (e : LogEntry) :
    entryTexts (sanitizeEntry secrets e) = (entryTexts e).map (redactField secrets) := by
  cases e with
  | agent_start i => rfl
  | command c o e x => rfl
  | agent_result o => rfl
  | grader gr => rfl
  | reward v o => cases o with
    | none => rfl
    | some f => rfl

theorem flatMap_entryTexts_sanitize (secrets : List Text) (log : List LogEntry) :
    (log.map (sanitizeEntry secrets)).flatMap entryTexts
      = (log.flatMap entryTexts).map (redactField secrets) := by
  induction log with
  | nil => rfl
  | cons e log ih =>
    simp only [List.map_cons, List.flatMap_cons, List.map_append, ih,
      entryTexts_sanitizeEntry]

theorem trialTexts_sanitizeTrial (secrets : List Text) (t : TrialResult) :
    trialTexts (sanitizeTrial secrets t) = (trialTexts t).map (redactField secrets) := by
  rw [trialTexts, trialTexts, sanitizeTrial]
  simp only [List.map_append]
  congr 1
  · exact flatMap_entryTexts_sanitize secrets t.session_log
  · rw [List.map_map, List.map_map]
    rfl

theorem reportTexts_sanitizeReport (env : List (Text × Text)) (r : EvalReport) :
    reportTexts (sanitizeReport (some env) r)
      = (reportTexts r).map (redactField (env.map Prod.snd)) := by
  rw [reportTexts, reportTexts, sanitizeReport]
  induction r.trials with
  | nil => rfl
  | cons t ts ih =>
    simp only [List.map_cons, List.flatMap_cons, List.map_append, ih,
      trialTexts_sanitizeTrial]

theorem foldl_add_eq_sum (f : GraderResult → ℚ) (rs : List GraderResult) (a : ℚ) :
    rs.foldl (fun sum r => sum + f r) a = a + (rs.map f).sum := by
  induction rs generalizing a with
  | nil => simp
  | cons r rs ih => simp [List.foldl_cons, ih, add_assoc]

theorem totalWeight_eq_sum (rs : List GraderResult) :
    totalWeight rs = (rs.map (fun r => r.weight)).sum := by
  simpa using foldl_add_eq_sum (fun r => r.weight) rs 0

theorem foldl_mul_eq_prod (f : ℕ → ℚ) (k : ℕ) (a : ℚ) :
    (List.range k).foldl (fun result i => result * f i) a
      = a * ∏ i ∈ Finset.range k, f i := by
  induction k generalizing a with
  | zero => simp
  | succ k ih =>
      rw [List.range_succ, List.foldl_append, ih, Finset.prod_range_succ]
      simp [mul_assoc]

theorem getLast_append_singleton {α : Type} (l : List α) (a : α) :
    (l ++ [a]).getLast? = some a := by
  induction l with
  | nil => rfl
  | cons x xs ih =>
      rw [List.cons_append, List.getLast?_cons]
      simpa [List.getLast?_eq_head?_reverse] using ih

/-- On a phase failure after setup, the trial outcome has reward 0, no
grader results, and the error text as the final zero-reward log entry. -/
theorem trialOutcome_phase_failure (b : TrialBehavior) (index : ℕ)
    (hf : phaseFailed b) :
    (trialOutcome b index).reward = 0 ∧
    (trialOutcome b index).grader_results = [] ∧
    ∃ e, (trialOutcome b index).session_log.getLast?
        = some (LogEntry.reward 0 (some e)) := by
  unfold trialOutcome trialData
  cases hins : b.instructionResult with
  | error e => exact ⟨rfl, rfl, e, rfl⟩
  | ok instruction =>
    cases hag : b.agentOutcome with
    | error e =>
        refine ⟨rfl, rfl, e, ?_⟩
        simp only []
        rw [List.cons_append, List.getLast?_cons]
        simp [List.getLast?_eq_head?_reverse, getLast_append_singleton]
    | ok agentLogs =>
      cases hg : runGraderLoop b.graderOutcomes with
      | error e =>
          refine ⟨rfl, rfl, e, ?_⟩
          simp only []
          rw [List.append_assoc, List.cons_append, List.getLast?_cons]
          simp [List.getLast?_eq_head?_reverse, getLast_append_singleton]
      | ok pr =>
          exfalso
          rcases hf with h | h | h
          · rw [hins] at h
            simp [isErr] at h
          · rw [hag] at h
            simp [isErr] at h
          · rw [hg] at h
            simp [isErr] at h

/-- Sequential loop result when every involved setup succeeds. -/
theorem runTrialsSeqFrom_all_ok (b : ℕ → TrialBehavior) (k : ℕ) :
    ∀ i, (∀ j, j < k → (b (i + j)).setupResult = Except.ok ()) →
    runTrialsSeqFrom b i k
      = Except.ok ((List.range k).map (fun j => trialOutcome (b (i + j)) (i + j))) := by
  induction k with
  | zero => intro i _; simp [runTrialsSeqFrom]
  | succ k ih =>
    intro i h
    have h0 : (b i).setupResult = Except.ok () := by
      simpa using h 0 (Nat.succ_pos k)
    have hrest : ∀ j, j < k → (b (i + 1 + j)).setupResult = Except.ok () := by
      intro j hj
      have := h (j + 1) (by omega)
      simpa [Nat.add_assoc, Nat.add_comm 1 j] using this
    rw [runTrialsSeqFrom, runSingleTrial, h0]
    simp only []
    rw [ih (i + 1) hrest]
    rw [List.range_succ_eq_map, List.map_cons, List.map_map]
    have hfun : (fun j => trialOutcome (b (i + 1 + j)) (i + 1 + j))
        = (fun j => trialOutcome (b (i + j)) (i + j)) ∘ Nat.succ := by
      funext j
      have hj : i + 1 + j = i + (j + 1) := by omega
      simp [Function.comp, hj]
    rw [hfun]
    simp

/-- Sequential loop abort: when the setups before trial `m` succeed and
trial `m`'s setup throws, the loop rejects with that error. -/
theorem runTrialsSeqFrom_abort (b : ℕ → TrialBehavior) (m : ℕ) :
    ∀ i k, m < k →
    (∀ j, j < m → (b (i + j)).setupResult = Except.ok ()) →
    ∀ e, (b (i + m)).setupResult = Except.error e →
    runTrialsSeqFrom b i k = Except.error e := by
  induction m with
  | zero =>
    intro i k hk hok e herr
    cases k with
    | zero => omega
    | succ k =>
      rw [runTrialsSeqFrom, runSingleTrial]
      simp only [Nat.add_zero] at herr
      rw [herr]
  | succ m ih =>
    intro i k hk hok e herr
    cases k with
    | zero => omega
    | succ k =>
      have h0 : (b i).setupResult = Except.ok () := by
        simpa using hok 0 (Nat.succ_pos m)
      rw [runTrialsSeqFrom, runSingleTrial, h0]
      simp only []
      have hok1 : ∀ j, j < m → (b (i + 1 + j)).setupResult = Except.ok () := by
        intro j hj
        have := hok (j + 1) (by omega)
        simpa [Nat.add_assoc, Nat.add_comm 1 j] using this
      have herr1 : (b (i + 1 + m)).setupResult = Except.error e := by
        have : i + 1 + m = i + (m + 1) := by omega
        rw [this]
        exact herr
      rw [ih (i + 1) k (by omega) hok1 e herr1]

/-!
## Claim theorems
-/

/-- C4: for grader scores in [0,1] and non-negative weights, the trial
reward equals the weighted average Σ(score·weight)/Σ(weight), is 0 when the
total weight is 0, and always lies in [0,1]. -/
theorem reward_weighted_aggregation (rs : List GraderResult)
    (hs : ∀ r ∈ rs, 0 ≤ r.score ∧ r.score ≤ 1)
    (hw : ∀ r ∈ rs, 0 ≤ r.weight) :
    (totalWeight rs = 0 → weightedReward rs = 0) ∧
    (totalWeight rs ≠ 0 →
      weightedReward rs
        = (rs.map (fun r => r.score * r.weight)).sum / totalWeight rs) ∧
    0 ≤ weightedReward rs ∧ weightedReward rs ≤ 1 := by
  have hw0 : 0 ≤ totalWeight rs := by
    rw [totalWeight_eq_sum]
    apply List.sum_nonneg
    intro x hx
    obtain ⟨r, hr, rfl⟩ := List.mem_map.mp hx
    exact hw r hr
  have hnum : rs.foldl (fun sum r => sum + r.score * r.weight) 0
      = (rs.map (fun r => r.score * r.weight)).sum := by
    simpa using foldl_add_eq_sum (fun r => r.score * r.weight) rs 0
  have hnum0 : 0 ≤ (rs.map (fun r => r.score * r.weight)).sum := by
    apply List.sum_nonneg
    intro x hx
    obtain ⟨r, hr, rfl⟩ := List.mem_map.mp hx
    exact mul_nonneg (hs r hr).1 (hw r hr)
  have hle : (rs.map (fun r => r.score * r.weight)).sum
      ≤ (rs.map (fun r => r.weight)).sum := by
    apply List.sum_le_sum
    intro r hr
    calc r.score * r.weight ≤ 1 * r.weight :=
          mul_le_mul_of_nonneg_right (hs r hr).2 (hw r hr)
      _ = r.weight := one_mul _
  refine ⟨?_, ?_, ?_, ?_⟩
  · intro h0
    simp [weightedReward, h0]
  · intro hne
    have hpos : 0 < totalWeight rs := lt_of_le_of_ne hw0 (Ne.symm hne)
    simp [weightedReward, hpos, hnum]
  · by_cases hpos : 0 < totalWeight rs
    · simp only [weightedReward, if_pos hpos, hnum]
      exact div_nonneg hnum0 (le_of_lt hpos)
    · simp [weightedReward, hpos]
  · by_cases hpos : 0 < totalWeight rs
    · simp only [weightedReward, if_pos hpos, hnum]
      rw [div_le_one hpos, totalWeight_eq_sum]
      exact hle
    · simp [weightedReward, hpos]

/-- Witness for C4 at a concrete grader-result list. -/
theorem reward_weighted_aggregation_witness :
    (∀ r ∈ [⟨chars "deterministic", 1/2, 2, chars "ok"⟩,
            (⟨chars "llm_rubric", 1, 1, chars "good"⟩ : GraderResult)],
        (0 ≤ r.score ∧ r.score ≤ 1) ∧ 0 ≤ r.weight) ∧
    0 ≤ weightedReward [⟨chars "deterministic", 1/2, 2, chars "ok"⟩,
            ⟨chars "llm_rubric", 1, 1, chars "good"⟩] := by
  refine ⟨by intro r hr; fin_cases hr <;> norm_num, ?_⟩
  exact (reward_weighted_aggregation _
    (by intro r hr; fin_cases hr <;> norm_num)
    (by intro r hr; fin_cases hr <;> norm_num)).2.2.1

/-- C6: pass@k is 1 whenever `n - c < k` and otherwise equals
`1 - ∏ (n-c-i)/(n-i)`; pass^k equals `(c/n)^k`; in particular
`pass@5 = 1` and `pass^5 = 243/3125 = 0.07776` at n=5, c=3, k=5. -/
theorem passAtK_passPowK_spec (n c k : ℕ)
    (hn : 1 ≤ n) (hc : c ≤ n) (hk : 1 ≤ k) :
    (((n : ℚ) - c < k → calculatePassAtK n c k = 1) ∧
     (¬ ((n : ℚ) - c < k) →
        calculatePassAtK n c k
          = 1 - ∏ i ∈ Finset.range k, (((n : ℚ) - c - i) / ((n : ℚ) - i)))) ∧
    calculatePassPowK n c k = ((c : ℚ) / n) ^ k ∧
    calculatePassAtK 5 3 5 = 1 ∧ calculatePassPowK 5 3 5 = 243 / 3125 := by
  refine ⟨⟨?_, ?_⟩, rfl, ?_, ?_⟩
  · intro h
    simp [calculatePassAtK, h]
  · intro h
    rw [calculatePassAtK, if_neg h, foldl_mul_eq_prod, one_mul]
  · norm_num [calculatePassAtK]
  · norm_num [calculatePassPowK]

/-- Witness for C6 at n=5, c=3, k=5. -/
theorem passAtK_passPowK_spec_witness :
    (1 ≤ 5 ∧ 3 ≤ 5 ∧ 1 ≤ 5) ∧ calculatePassPowK 5 3 5 = 243 / 3125 :=
  ⟨⟨by decide, by decide, by decide⟩,
    (passAtK_passPowK_spec 5 3 5 (by decide) (by decide) (by decide)).2.2.2⟩

/-- C7: Normalized Gain equals `(pWith - pWithout)/(1 - pWithout)` whenever
`pWithout ≠ 1`, and at `pWithout = 1` it is 0 if `pWith = 1` and -1
otherwise; with the six concrete values given in the spec. -/
theorem normalizedGain_spec (pWith pWithout : ℚ) :
    (pWithout ≠ 1 →
      calculateNormalizedGain pWith pWithout
        = (pWith - pWithout) / (1 - pWithout)) ∧
    (pWithout = 1 → pWith = 1 → calculateNormalizedGain pWith pWithout = 0) ∧
    (pWithout = 1 → pWith ≠ 1 → calculateNormalizedGain pWith pWithout = -1) ∧
    calculateNormalizedGain 1 (1/2) = 1 ∧
    calculateNormalizedGain (3/4) (1/2) = 1/2 ∧
    calculateNormalizedGain (1/2) (1/2) = 0 ∧
    calculateNormalizedGain (1/4) (1/2) = -(1/2) ∧
    calculateNormalizedGain 1 1 = 0 ∧
    calculateNormalizedGain (1/2) 1 = -1 := by
  refine ⟨?_, ?_, ?_, ?_, ?_, ?_, ?_, ?_, ?_⟩
  · intro h; simp [calculateNormalizedGain, h]
  · intro h h1; simp [calculateNormalizedGain, h, h1]
  · intro h h1; simp [calculateNormalizedGain, h, h1]
  all_goals norm_num [calculateNormalizedGain]

/-- Witness for C7: the general formula applied at (1, 1/2). -/
theorem normalizedGain_spec_witness :
    (1 : ℚ) / 2 ≠ 1 ∧ calculateNormalizedGain 1 (1/2) = (1 - 1/2) / (1 - 1/2) := by
  refine ⟨by norm_num, ?_⟩
  have h := (normalizedGain_spec 1 (1/2)).1 (by norm_num)
  exact h

/-- C8: the deterministic grader scores 1.0 iff the verification command
exits 0 (else 0.0), unless the reward file is readable (exit code 0 on the
`cat`) and parses as a float, in which case that value clamped to [0,1]
overrides the exit-code default; in particular exit code 0 with reward
file content "0.3" scores 0.3. -/
theorem deterministicGrader_reward_file_override
    (config : GraderConfig) (result rewardCheck : CommandResult) :
    ((rewardCheck.exitCode ≠ 0 ∨ jsParseFloat (jsTrim rewardCheck.stdout) = JSNum.nan) →
      (deterministicGrade config result rewardCheck).score
        = (if result.exitCode = 0 then 1 else 0)) ∧
    (∀ q : ℚ, rewardCheck.exitCode = 0 →
      jsParseFloat (jsTrim rewardCheck.stdout) = JSNum.num q →
      (deterministicGrade config result rewardCheck).score = max 0 (min 1 q)) ∧
    (deterministicGrade config ⟨chars "ok", [], 0⟩ ⟨chars "0.3", [], 0⟩).score
      = 3 / 10 := by
  refine ⟨?_, ?_, ?_⟩
  · rintro (h | h)
    · simp [deterministicGrade, h]
    · by_cases h0 : rewardCheck.exitCode = 0
      · simp [deterministicGrade, h0, h]
      · simp [deterministicGrade, h0]
  · intro q h0 hq
    simp [deterministicGrade, h0, hq]
  · have hscan : scanFloat (jsTrim (chars "0.3"))
        = FloatSyntax.fin false (chars "0") (chars "3") 0 := by decide
    have hparse : jsParseFloat (jsTrim (chars "0.3")) = JSNum.num (3/10) := by
      rw [jsParseFloat, hscan]
      have h0 : digitsToNat (chars "0") = 0 := by decide
      have h3 : fracVal (chars "3") = 3 / 10 := by
        have : digitsToNat (chars "3") = 3 := by decide
        rw [fracVal, this]
        norm_num [chars]
      simp [h0, h3]
    simp [deterministicGrade, hparse]
    norm_num

/-- Witness for C8: the override clause applied at exit code 0 and reward
file content "0.3". -/
theorem deterministicGrader_reward_file_override_witness :
    ((0 : ℤ) = 0 ∧ jsParseFloat (jsTrim (chars "0.3")) = JSNum.num (3/10)) ∧
    (deterministicGrade ⟨chars "deterministic", none, none, none, 1⟩
        ⟨chars "ok", [], 0⟩ ⟨chars "0.3", [], 0⟩).score = max 0 (min 1 (3/10)) := by
  have hscan : scanFloat (jsTrim (chars "0.3"))
      = FloatSyntax.fin false (chars "0") (chars "3") 0 := by decide
  have hparse : jsParseFloat (jsTrim (chars "0.3")) = JSNum.num (3/10) := by
    rw [jsParseFloat, hscan]
    have h0 : digitsToNat (chars "0") = 0 := by decide
    have h3 : fracVal (chars "3") = 3 / 10 := by
      have : digitsToNat (chars "3") = 3 := by decide
      rw [fracVal, this]
      norm_num [chars]
    simp [h0, h3]
  refine ⟨⟨rfl, hparse⟩, ?_⟩
  exact (deterministicGrader_reward_file_override
    ⟨chars "deterministic", none, none, none, 1⟩
    ⟨chars "ok", [], 0⟩ ⟨chars "0.3", [], 0⟩).2.1 (3/10) rfl hparse

/-- C9: the rubric grader never raises: it is a total function whose
result always has score in [0,1] and carries the configured weight
unchanged, and every failure input (missing rubric, missing credential,
thrown fetch, response without a JSON-shaped substring, or a JSON parse
error) yields score 0. -/
theorem llmGrader_total_score_bounds (env : LLMEnv) (config : GraderConfig) :
    (0 ≤ (llmGrade env config).score ∧ (llmGrade env config).score ≤ 1) ∧
    (llmGrade env config).weight = config.weight ∧
    (env.rubricExists = false → (llmGrade env config).score = 0) ∧
    (env.geminiKey = none → env.anthropicKey = none →
      (llmGrade env config).score = 0) ∧
    (∀ e, env.fetchResult = Except.error e → (llmGrade env config).score = 0) ∧
    (∀ t, env.fetchResult = Except.ok t → jsonMatchSub t = none →
      (llmGrade env config).score = 0) ∧
    (∀ t sub, env.fetchResult = Except.ok t → jsonMatchSub t = some sub →
      env.jsonParse sub = Except.error () → (llmGrade env config).score = 0) := by
  have hbounds : ∀ text, (0 ≤ (parseResponse env.jsonParse text config).score ∧
      (parseResponse env.jsonParse text config).score ≤ 1) ∧
      (parseResponse env.jsonParse text config).weight = config.weight := by
    intro text
    rw [parseResponse]
    cases hm : jsonMatchSub text with
    | none => simp [parseFailure]
    | some sub =>
      cases hp : env.jsonParse sub with
      | error e => simp [hp, parseFailure]
      | ok parsed =>
        cases hs : parsed.score with
        | nan => simp [hp, hs]
        | posInf => simp [hp, hs]
        | negInf => simp [hp, hs]
        | num q =>
          simp only [hp, hs]
          exact ⟨⟨le_max_left 0 _, max_le zero_le_one (min_le_left 1 q)⟩, trivial⟩
  have hcall : ∀ lab, (0 ≤ (callModel env config lab).score ∧
      (callModel env config lab).score ≤ 1) ∧
      (callModel env config lab).weight = config.weight := by
    intro lab
    rw [callModel]
    cases env.fetchResult with
    | error e => simp
    | ok text => exact hbounds text
  rw [llmGrade]
  cases hr : env.rubricExists with
  | false =>
    refine ⟨⟨le_refl 0, zero_le_one⟩, rfl, fun _ => rfl, fun _ _ => rfl, ?_, ?_, ?_⟩ <;>
      simp
  | true =>
    simp only [Bool.true_eq_false, if_false]
    cases hg : env.geminiKey with
    | some k =>
      refine ⟨(hcall _).1, (hcall _).2, by simp, by simp [hg], ?_, ?_, ?_⟩
      · intro e he
        simp [callModel, he]
      · intro t ht hm
        simp [callModel, ht, parseResponse, hm, parseFailure]
      · intro t sub ht hm hp
        simp [callModel, ht, parseResponse, hm, hp, parseFailure]
    | none =>
      cases ha : env.anthropicKey with
      | some k =>
        refine ⟨(hcall _).1, (hcall _).2, by simp, by simp [ha], ?_, ?_, ?_⟩
        · intro e he
          simp [callModel, he]
        · intro t ht hm
          simp [callModel, ht, parseResponse, hm, parseFailure]
        · intro t sub ht hm hp
          simp [callModel, ht, parseResponse, hm, hp, parseFailure]
      | none =>
        refine ⟨⟨le_refl 0, zero_le_one⟩, rfl, by simp, fun _ _ => rfl, ?_, ?_, ?_⟩ <;>
          simp

/-- C2 (amended): provider cleanup is invoked exactly once on every exit
path of the trial executor whose provider setup succeeded - success,
agent error, agent timeout, grader failure - but when setup itself throws,
cleanup is never invoked (the count is 0, not 1) and the setup error
propagates out of the executor. -/
theorem cleanup_exactly_once_after_setup (b : TrialBehavior) (index : ℕ) :
    (b.setupResult = Except.ok () → (runSingleTrial b index).2 = 1) ∧
    (∀ e, b.setupResult = Except.error e →
      (runSingleTrial b index).2 = 0 ∧
      (runSingleTrial b index).1 = Except.error e) := by
  constructor
  · intro h
    rw [runSingleTrial, h]
  · intro e h
    rw [runSingleTrial, h]
    exact ⟨rfl, rfl⟩

/-- Witness for C2: a trial whose setup succeeds and whose agent phase
times out still invokes cleanup exactly once. -/
theorem cleanup_exactly_once_after_setup_witness :
    agentTimeoutBehavior.setupResult = Except.ok () ∧
    (runSingleTrial agentTimeoutBehavior 0).2 = 1 :=
  ⟨rfl, (cleanup_exactly_once_after_setup agentTimeoutBehavior 0).1 rfl⟩

/-- Counterexample to C2 as stated: on the setup-failure exit path the
provider cleanup is invoked zero times, not exactly once. -/
theorem cleanup_on_setup_failure_counterexample :
    (runSingleTrial setupFailureBehavior 0).2 = 0 ∧ (0 : ℕ) ≠ 1 :=
  ⟨rfl, by decide⟩

/-- C3 (amended): every failure thrown inside a trial after a successful
provider setup (instruction read, agent execution or timeout, grading) is
caught at the executor boundary and converted into a zero-reward
TrialResult whose final session-log entry carries the error text; when
every trial's setup succeeds, runEval returns a report with exactly
numTrials trial results in ascending trial_id order. A thrown setup,
however, propagates and aborts the evaluation with the first such error. -/
theorem trial_failures_contained (taskName : Text) (skills : List Text)
    (b : ℕ → TrialBehavior) (n : ℕ) :
    ((∀ j, j < n → (b j).setupResult = Except.ok ()) →
      ∃ report, runEvalSeq taskName skills b n = Except.ok report ∧
        report.trials.length = n ∧
        (∀ j, j < n → ∃ t, report.trials[j]? = some t ∧
          t.trial_id = j + 1 ∧
          (phaseFailed (b j) →
            t.reward = 0 ∧ t.grader_results = [] ∧
            ∃ e, t.session_log.getLast? = some (LogEntry.reward 0 (some e))))) ∧
    (∀ m e, m < n → (∀ j, j < m → (b j).setupResult = Except.ok ()) →
      (b m).setupResult = Except.error e →
      runEvalSeq taskName skills b n = Except.error e) := by
  constructor
  · intro hsetup
    have hall : ∀ j, j < n → (b (0 + j)).setupResult = Except.ok () := by
      intro j hj
      simpa using hsetup j hj
    have hrun := runTrialsSeqFrom_all_ok b n 0 hall
    rw [runEvalSeq, hrun]
    refine ⟨_, rfl, ?_, ?_⟩
    · simp [buildReport]
    · intro j hj
      refine ⟨trialOutcome (b j) j, ?_, rfl, ?_⟩
      · show ((List.range n).map (fun j => trialOutcome (b (0 + j)) (0 + j)))[j]? = _
        rw [List.getElem?_map, List.getElem?_range hj]
        simp
      · intro hf
        exact trialOutcome_phase_failure (b j) j hf
  · intro m e hm hok herr
    have hok0 : ∀ j, j < m → (b (0 + j)).setupResult = Except.ok () := by
      intro j hj
      simpa using hok j hj
    have herr0 : (b (0 + m)).setupResult = Except.error e := by
      simpa using herr
    rw [runEvalSeq, runTrialsSeqFrom_abort b m 0 n hm hok0 e herr0]

/-- Witness for C3: one trial whose agent phase times out after a
successful setup still yields a full report with one zero-reward trial. -/
theorem trial_failures_contained_witness :
    (∀ j, j < 1 → ((fun _ => agentTimeoutBehavior) j).setupResult = Except.ok ()) ∧
    ∃ report, runEvalSeq (chars "superlint_demo") [] (fun _ => agentTimeoutBehavior) 1
        = Except.ok report ∧
      report.trials.length = 1 ∧
      (∀ j, j < 1 → ∃ t, report.trials[j]? = some t ∧
        t.trial_id = j + 1 ∧
        (phaseFailed ((fun _ => agentTimeoutBehavior) j) →
          t.reward = 0 ∧ t.grader_results = [] ∧
          ∃ e, t.session_log.getLast? = some (LogEntry.reward 0 (some e)))) :=
  ⟨fun _ _ => rfl,
    (trial_failures_contained (chars "superlint_demo") []
      (fun _ => agentTimeoutBehavior) 1).1 (fun _ _ => rfl)⟩

/-- Counterexample to C3 as stated: a single trial whose sandbox
provisioning throws makes runEval reject instead of reporting a
zero-reward trial result, so the returned report does not exist at all. -/
theorem setup_failure_aborts_eval_counterexample :
    runEvalSeq (chars "superlint_demo") [] (fun _ => setupFailureBehavior) 1
      = Except.error (chars "Setup failed: sandbox could not be provisioned") := by
  rfl

theorem schedInv_init (f : ℕ → TrialResult) (W n : ℕ) :
    SchedInv f n (initState W n) := by
  constructor
  · intro j
    simp only [initState, List.map_nil, List.count_nil, Nat.add_zero]
    by_cases hj : j < n
    · rw [if_pos hj]
      exact List.count_eq_one_of_mem (List.nodup_range n) (List.mem_range.mpr hj)
    · rw [if_neg hj]
      exact List.count_eq_zero_of_not_mem (by simpa using hj)
  · intro j hj
    simp [initState] at hj

theorem schedInv_step {f : ℕ → TrialResult} {n W : ℕ} {s t : SchedState W}
    (hstep : SchedStep f s t) (hinv : SchedInv f n s) : SchedInv f n t := by
  obtain ⟨hcount, hres⟩ := hinv
  cases hstep with
  | pop w i rest hidle hq =>
    constructor
    · intro j
      have hc := hcount j
      rw [hq] at hc
      by_cases hji : j = i
      · subst hji
        simp [List.count_cons] at hc ⊢
        omega
      · simp [List.count_cons, hji] at hc ⊢
        omega
    · intro j hw
      exact hres j hw
  | finish w i l1 l2 hp =>
    constructor
    · intro j
      have hc := hcount j
      rw [hp] at hc
      by_cases hji : j = i
      · subst hji
        simp [List.count_append, List.count_cons] at hc ⊢
        omega
      · simp [List.count_append, List.count_cons, hji] at hc ⊢
        omega
    · intro j hw
      by_cases hji : j = i
      · subst hji
        simp
      · simp only [if_neg hji] at hw ⊢
        exact hres j hw

theorem schedInv_reachable (f : ℕ → TrialResult) (W n : ℕ) (s : SchedState W)
    (h : SchedReachable f W n s) : SchedInv f n s := by
  unfold SchedReachable at h
  induction h with
  | refl => exact schedInv_init f W n
  | tail hsteps hstep ih => exact schedInv_step hstep ih

/-- C5: with numTrials ≥ 1, parallel ≥ 1 and an executor whose setups all
succeed, exactly min(parallel, numTrials) workers are started, and in
every terminal scheduler execution - whatever the completion order - each
result slot j was written exactly once and holds the executor result of
trial index j, whose trial_id is j+1; the trials array is therefore
ordered by ascending trial_id. The sequential path produces the same
ordered list. -/
theorem scheduler_slot_ordering (b : ℕ → TrialBehavior) (n p : ℕ)
    (hn : 1 ≤ n) (hp : 1 ≤ p)
    (hsetup : ∀ i, i < n → (b i).setupResult = Except.ok ()) :
    numWorkers p n = min p n ∧
    (∀ i, i < n → (runSingleTrial (b i) i).1 = Except.ok (trialOutcome (b i) i)) ∧
    (∀ s : SchedState (numWorkers p n),
      SchedReachable (fun i => trialOutcome (b i) i) (numWorkers p n) n s →
      SchedDone s →
      ∀ j, j < n → s.writes j = 1 ∧
        s.results j = some (trialOutcome (b j) j) ∧
        (trialOutcome (b j) j).trial_id = j + 1) ∧
    runTrialsSeqFrom b 0 n
      = Except.ok ((List.range n).map (fun j => trialOutcome (b (0 + j)) (0 + j))) := by
  refine ⟨rfl, ?_, ?_, ?_⟩
  · intro i hi
    rw [runSingleTrial, hsetup i hi]
  · intro s hreach hdone j hj
    obtain ⟨hcount, hres⟩ :=
      schedInv_reachable (fun i => trialOutcome (b i) i) (numWorkers p n) n s hreach
    have hc := hcount j
    rw [hdone.1, hdone.2] at hc
    simp only [List.count_nil, List.map_nil, Nat.zero_add, if_pos hj] at hc
    refine ⟨hc, ?_, rfl⟩
    exact hres j (by omega)
  · exact runTrialsSeqFrom_all_ok b n 0 (fun j hj => by simpa using hsetup j hj)

/-- Witness for C5: a concrete numTrials=3, parallel=3 schedule whose
workers finish out of order still produces the trials array ordered
[1, 2, 3]. -/
theorem scheduler_slot_ordering_witness :
    (1 ≤ 3 ∧ 1 ≤ 3 ∧
      ∀ i, i < 3 → ((fun _ => successBehavior) i).setupResult = Except.ok ()) ∧
    SchedReachable exampleTrialFn (numWorkers 3 3) 3 schedFinalExample ∧
    SchedDone schedFinalExample ∧
    (List.range 3).map (fun j => (schedFinalExample.results j).map TrialResult.trial_id)
      = [some 1, some 2, some 3] := by
  have hreach : SchedReachable exampleTrialFn (numWorkers 3 3) 3 schedFinalExample := by
    unfold SchedReachable
    exact Relation.ReflTransGen.head
      (SchedStep.pop (initState (numWorkers 3 3) 3) exW0 0 [1, 2]
        (by intro q hq; simp [initState] at hq) rfl)
      (Relation.ReflTransGen.head
        (SchedStep.pop (popState (initState (numWorkers 3 3) 3) exW0 0 [1, 2])
          exW1 1 [2] (by decide) rfl)
        (Relation.ReflTransGen.head
          (SchedStep.pop (popState (popState (initState (numWorkers 3 3) 3)
              exW0 0 [1, 2]) exW1 1 [2]) exW2 2 [] (by decide) rfl)
          (Relation.ReflTransGen.head
            (SchedStep.finish (popState (popState (popState
                (initState (numWorkers 3 3) 3) exW0 0 [1, 2]) exW1 1 [2]) exW2 2 [])
              exW1 1 [(exW2, 2)] [(exW0, 0)] rfl)
            (Relation.ReflTransGen.head
              (SchedStep.finish (finishState exampleTrialFn (popState (popState (popState
                  (initState (numWorkers 3 3) 3) exW0 0 [1, 2]) exW1 1 [2]) exW2 2 [])
                  1 [(exW2, 2)] [(exW0, 0)])
                exW2 2 [] [(exW0, 0)] rfl)
              (Relation.ReflTransGen.head
                (SchedStep.finish (finishState exampleTrialFn (finishState exampleTrialFn
                    (popState (popState (popState (initState (numWorkers 3 3) 3)
                      exW0 0 [1, 2]) exW1 1 [2]) exW2 2 [])
                    1 [(exW2, 2)] [(exW0, 0)]) 2 [] [(exW0, 0)])
                  exW0 0 [] [] rfl)
                Relation.ReflTransGen.refl)))))
  have hdone : SchedDone schedFinalExample := ⟨rfl, rfl⟩
  have hmain := (scheduler_slot_ordering (fun _ => successBehavior) 3 3
    (by decide) (by decide) (fun i hi => rfl)).2.2.1 schedFinalExample hreach hdone
  refine ⟨⟨by decide, by decide, fun i hi => rfl⟩, hreach, hdone, ?_⟩
  have hr : List.range 3 = [0, 1, 2] := rfl
  rw [hr]
  simp only [List.map_cons, List.map_nil]
  rw [(hmain 0 (by decide)).2.1, (hmain 1 (by decide)).2.1, (hmain 2 (by decide)).2.1]
  rfl

/-- C1 (amended): for every report, env map, and injected secret value of
length > 5 that does not overlap the sentinel "[REDACTED]" (the secret is
not a substring of the sentinel nor the sentinel of the secret, no
nonempty prefix of the sentinel is a suffix of the secret, and no
nonempty suffix of the sentinel is a prefix of the secret), the sanitized
report contains zero verbatim occurrences of that secret in any
session-log text field or grader detail string, and when the secret
occurred in some field of the original report (for example echoed into
command stdout) the sentinel occurs in the sanitized report. Without the
non-overlap condition the redaction pass itself can re-create such a
secret. -/
theorem sanitize_removes_safe_secrets (r : EvalReport) (env : List (Text × Text))
    (sec : Text) (hmem : sec ∈ env.map Prod.snd) (hlen : 5 < sec.length)
    (hsafe : SentinelSafe sec) :
    (∀ f ∈ reportTexts (sanitizeReport (some env) r), ¬ sec <:+: f) ∧
    ((∃ f ∈ reportTexts r, sec <:+: f) →
      ∃ g ∈ reportTexts (sanitizeReport (some env) r), sentinel <:+: g) := by
  constructor
  · intro f hf
    rw [reportTexts_sanitizeReport] at hf
    obtain ⟨f0, hf0, rfl⟩ := List.mem_map.mp hf
    exact redactField_free _ hmem hlen hsafe f0
  · rintro ⟨f, hf, hocc⟩
    refine ⟨redactField (env.map Prod.snd) f, ?_, ?_⟩
    · rw [reportTexts_sanitizeReport]
      exact List.mem_map.mpr ⟨f, hf, rfl⟩
    · exact redactField_sentinel _ hmem hlen hsafe hocc

/-- Witness for C1 at the spec's scenario: the secret
"SUPER_SECRET_KEY_12345" echoed into command stdout does not occur in the
sanitized field. -/
theorem sanitize_removes_safe_secrets_witness :
    (chars "SUPER_SECRET_KEY_12345" ∈ exampleSecretEnv.map Prod.snd ∧
     5 < (chars "SUPER_SECRET_KEY_12345").length ∧
     SentinelSafe (chars "SUPER_SECRET_KEY_12345")) ∧
    ¬ chars "SUPER_SECRET_KEY_12345" <:+:
        redactField (exampleSecretEnv.map Prod.snd) exampleEchoStdout := by
  have hsafe : SentinelSafe (chars "SUPER_SECRET_KEY_12345") := by decide
  refine ⟨⟨by decide, by decide, hsafe⟩, ?_⟩
  have h := (sanitize_removes_safe_secrets exampleSecretReport exampleSecretEnv
    (chars "SUPER_SECRET_KEY_12345") (by decide) (by decide) hsafe).1
  apply h
  rw [reportTexts_sanitizeReport]
  exact List.mem_map.mpr ⟨exampleEchoStdout, by decide, rfl⟩

/-- Counterexample to C1 as stated: redaction itself can re-create a
secret that overlaps the sentinel. With secret value "REDACT" (length 6,
above the threshold) echoed verbatim into command stdout, the persisted
report's sanitized stdout is "[REDACTED]", which contains "REDACT". -/
theorem sanitize_recreates_secret_counterexample :
    5 < (chars "REDACT").length ∧
    chars "REDACT" ∈ exampleLeakEnv.map Prod.snd ∧
    (reportTexts (sanitizeReport (some exampleLeakEnv) exampleLeakReport))[1]?
      = some (chars "[REDACTED]") ∧
    chars "REDACT" <:+: chars "[REDACTED]" := by
  have h1 : findSub (chars "REDACT") (chars "REDACT") = some 0 := by decide
  have h2 : findSub (chars "REDACT") ([] : Text) = none := by decide
  have h3 : splitOnSub (chars "REDACT") (chars "REDACT") = [[], []] := by
    rw [splitOnSub_of_some _ _ (by decide) 0 h1]
    rw [show (chars "REDACT").take 0 = [] from rfl,
      show (chars "REDACT").drop (0 + (chars "REDACT").length) = [] from rfl]
    rw [splitOnSub_of_none _ _ (by decide) h2]
  have h4 : redactOne (chars "REDACT") sentinel (chars "REDACT") = chars "[REDACTED]" := by
    rw [redactOne, h3, joinWith]
    rfl
  have h5 : redact (exampleLeakEnv.map Prod.snd) (chars "REDACT") = chars "[REDACTED]" := by
    simp only [exampleLeakEnv, List.map_cons, List.map_nil, redact,
      List.foldl_cons, List.foldl_nil]
    rw [if_pos (⟨by decide, by decide⟩ :
      chars "REDACT" ≠ [] ∧ 5 < (chars "REDACT").length)]
    exact h4
  have h6 : redactField (exampleLeakEnv.map Prod.snd) (chars "REDACT")
      = chars "[REDACTED]" := by
    rw [redactField, if_neg (by decide), h5]
  refine ⟨by decide, by decide, ?_, by decide⟩
  rw [reportTexts_sanitizeReport,
    show reportTexts exampleLeakReport
      = [chars "echo secret", chars "REDACT", []] from by decide,
    List.map_cons, List.map_cons, List.map_cons, List.map_nil]
  show some (redactField (exampleLeakEnv.map Prod.snd) (chars "REDACT")) = _
  rw [h6]

/-- C10: the redaction threshold is strictly greater than 5: a secret of
length ≤ 5 is skipped by the redact fold even among other secrets, a
report sanitized against only short secrets is returned entirely
unchanged, and when no env map is supplied the report is returned
unchanged with no redaction at all. -/
theorem sanitize_threshold_and_no_env (r : EvalReport) (env : List (Text × Text)) :
    sanitizeReport none r = r ∧
    ((∀ v ∈ env.map Prod.snd, v.length ≤ 5) → sanitizeReport (some env) r = r) ∧
    (∀ (sec : Text) (secrets : List Text) (l : Text), sec.length ≤ 5 →
      redact (sec :: secrets) l = redact secrets l) := by
  refine ⟨rfl, ?_, ?_⟩
  · intro h
    rw [sanitizeReport]
    have hred : ∀ f, redactField (env.map Prod.snd) f = f := by
      intro f
      rw [redactField]
      split
      · rfl
      · exact redact_id_of_short h f
    have hopt : ∀ o, redactOptField (env.map Prod.snd) o = o := by
      intro o
      cases o with
      | none => rfl
      | some f => simp [redactOptField, hred]
    have hgr : ∀ gr, sanitizeGraderResult (env.map Prod.snd) gr = gr := by
      intro gr
      rw [sanitizeGraderResult, hred]
    have hent : ∀ e, sanitizeEntry (env.map Prod.snd) e = e := by
      intro e
      cases e <;> simp [sanitizeEntry, hred, hgr, hopt]
    have htr : ∀ t, sanitizeTrial (env.map Prod.snd) t = t := by
      intro t
      rw [sanitizeTrial]
      rw [show sanitizeEntry (env.map Prod.snd) = id from funext hent, List.map_id]
      rw [show sanitizeGraderResult (env.map Prod.snd) = id from funext hgr,
        List.map_id]
    rw [show sanitizeTrial (env.map Prod.snd) = id from funext htr, List.map_id]
  · intro sec secrets l hlen
    simp only [redact, List.foldl_cons]
    rw [if_neg (by rintro ⟨-, hb⟩; omega)]

/-- Witness for C10: a report sanitized against a 3-character secret is
unchanged. -/
theorem sanitize_threshold_and_no_env_witness :
    (∀ v ∈ ([(chars "K", chars "abc")] : List (Text × Text)).map Prod.snd,
        v.length ≤ 5) ∧
    sanitizeReport (some [(chars "K", chars "abc")]) exampleSecretReport
      = exampleSecretReport :=
  ⟨by decide,
    (sanitize_threshold_and_no_env exampleSecretReport
      [(chars "K", chars "abc")]).2.1 (by decide)⟩

end SkillEval